import Mathlib

/-!
Verification development for the go-htmx-chatter broadcast hub.

The Go sources embedded here:
- the Hub control loop (`Hub.Run`): registry of clients, append-only
  message history, register/unregister/broadcast event handling with
  non-blocking fan-out and backpressure eviction;
- the per-client pumps (`Client.readPump`, `Client.writePump`):
  read-deadline management, keepalive timing constants, inbound decode
  handling and the outbound write burst.

Conventions: Go `time.Duration` values are nanosecond counts, embedded as
`Nat`.  A client's outbound channel (`send chan []byte`) is embedded as a
bounded queue of rendered strings held in the hub state, with a per-client
capacity; the Go pointer identity of a `*Client` map key is embedded as a
`tag : Nat` field.  Rendering (`getMessageTemplate`) is an external
collaborator and is passed in as a function parameter `render`.
-/

namespace Chatter

/-- Embeds `time.Second`: one second in nanoseconds. -/
def second : Nat := 1000000000

/-- Embeds `pongWait = 60 * time.Second` (client.go): time allowed to read
the next pong message from the peer. -/
def pongWait : Nat := 60 * second

/-- Embeds `maxMessageSize = 512` (client.go): maximum message size allowed
from the peer. -/
def maxMessageSize : Nat := 512

/-- Embeds `pingPeriod = (pongWait * 9) / 10` (client.go): period of the
keepalive pings sent to the peer. -/
def pingPeriod : Nat := (pongWait * 9) / 10

/-- Embeds `writeWait = 10 * time.Second` (client.go): time allowed to
write a message to the peer. -/
def writeWait : Nat := 10 * second

/-- Embeds the `Message` struct (hub source): a chat message with the
sending client's id and the message text. -/
structure Message where
  ClientId : String
  Text : String
deriving DecidableEq, Repr

/-- Embeds the `WSMessage` struct (hub source): the decoded inbound wire
payload.  The `HEADERS` field is opaque to the core (`interface{}` in Go);
it is embedded as an uninterpreted optional string. -/
structure WSMessage where
  Headers : Option String
  Text : String
deriving DecidableEq, Repr

/-- Embeds a `*Client` as seen by the hub: `tag` stands for the Go pointer
identity (the registry map key), `id` is the uuid string, and `cap` is the
capacity of its `send` channel. -/
structure Client where
  tag : Nat
  id : String
  cap : Nat
deriving DecidableEq, Repr

/-- The mutable state owned by the Hub control loop (hub source, `Hub`
struct): the registry `clients` (the key set of the Go map, kept as a
duplicate-free list), the message history `messages`, and per-client
channel state: `mailbox c` is the queue of rendered messages buffered in
`c.send`, and `closedc c` records whether `close(c.send)` has been
called. -/
structure HubState where
  clients : List Client
  messages : List Message
  mailbox : Client → List String
  closedc : Client → Bool

/-- Pointwise update of a per-client map, used to embed writes to one
client's channel state. -/
def upd {α : Type} (f : Client → α) (c : Client) (a : α) : Client → α :=
  fun x => if x = c then a else f x

/-- The three kinds of events the `select` in `Hub.Run` reacts to: a client
arriving on `h.register`, a client arriving on `h.unregister`, and a
message arriving on `h.broadcast`. -/
inductive Event where
  | register (c : Client)
  | unregister (c : Client)
  | broadcast (m : Message)
deriving DecidableEq, Repr

/-- Embeds `h.clients[client] = true`: inserting a key into the Go map.
If the key is already present the key set is unchanged. -/
def regInsert (c : Client) (l : List Client) : List Client :=
  if c ∈ l then l else c :: l

/-- Embeds the fan-out loop of the `broadcast` case of `Hub.Run`:
`for client := range h.clients { select { case client.send <- r: default:
close(client.send); delete(h.clients, client) } }`.  The first argument is
the rendered message, the second the snapshot of registry keys the range
iterates over.  The non-blocking send succeeds exactly when the channel
buffer has room (`length < cap`); otherwise the client's channel is closed
and the client is deleted from the registry.  Returns the updated state
together with the list of clients whose channel was closed during this
fan-out. -/
def fanout (r : String) : List Client → HubState → HubState × List Client
  | [], s => (s, [])
  | c :: rest, s =>
      if (s.mailbox c).length < c.cap then
        fanout r rest { s with mailbox := upd s.mailbox c (s.mailbox c ++ [r]) }
      else
        let p := fanout r rest
          { s with clients := s.clients.erase c,
                   closedc := upd s.closedc c true }
        (p.1, c :: p.2)

/-- Embeds one iteration of the `Hub.Run` control loop: handle exactly one
event.  `render` embeds `getMessageTemplate`.  Returns the updated hub
state together with the list of clients whose `send` channel was closed
while handling the event. -/
def hubStep (render : Message → String) (s : HubState) : Event → HubState × List Client
  | .register c => ({ s with clients := regInsert c s.clients }, [])
  | .unregister c =>
      if c ∈ s.clients then
        ({ s with clients := s.clients.erase c,
                  closedc := upd s.closedc c true }, [c])
      else (s, [])
  | .broadcast m =>
      fanout (render m) s.clients { s with messages := s.messages ++ [m] }

/-- Runs the `Hub.Run` loop over a whole sequence of events, accumulating
the clients whose channels were closed along the way. -/
def hubRun (render : Message → String) (s : HubState) : List Event → HubState × List Client
  | [] => (s, [])
  | e :: es =>
      ((hubRun render (hubStep render s e).1 es).1,
        (hubStep render s e).2 ++ (hubRun render (hubStep render s e).1 es).2)

/-- Embeds the state built by `NewHub()`: empty registry, empty history,
every channel empty and open. -/
def initHub : HubState :=
  { clients := [], messages := [], mailbox := fun _ => [], closedc := fun _ => false }

/-- The clients carried by the `register` events of an event sequence, in
order.  In the running program each `*Client` is sent on `h.register`
exactly once, from `serveWs` right after it is allocated, so this list is
duplicate-free on every reachable event sequence. -/
def registersOf : List Event → List Client
  | [] => []
  | .register c :: es => c :: registersOf es
  | .unregister _ :: es => registersOf es
  | .broadcast _ :: es => registersOf es

/-- A control frame arriving on the websocket: a ping sent by the peer, or
a pong (the peer's liveness-ack to one of our pings). -/
inductive CtrlFrame where
  | ping (appData : String)
  | pong (appData : String)
deriving DecidableEq, Repr

/-- The connection read state configured by `readPump` (client.go): the
read limit and the absolute read deadline, in nanoseconds. -/
structure ConnReadState where
  readLimit : Nat
  readDeadline : Nat
deriving DecidableEq, Repr

/-- Embeds the setup at the top of `Client.readPump` (client.go:76-79):
`SetReadLimit(maxMessageSize)` and `SetReadDeadline(now + pongWait)`. -/
def readPumpInit (now : Nat) : ConnReadState :=
  { readLimit := maxMessageSize, readDeadline := now + pongWait }

/-- Embeds the control-frame handling configured by `readPump`
(client.go:82-87): the pump installs `SetPingHandler` with a handler that
calls `SetReadDeadline(now + pongWait)`, so an incoming ping refreshes the
deadline.  No pong handler is installed, so an incoming pong is handled by
the transport's default pong handler, which leaves the read state
unchanged. -/
def handleCtrl (s : ConnReadState) (now : Nat) : CtrlFrame → ConnReadState
  | .ping _ => { s with readDeadline := now + pongWait }
  | .pong _ => s

/-- The outcome of one iteration of the `readPump` read loop: either the
read failed and the pump breaks out of the loop, or a data frame was read. -/
inductive ReadEvent where
  | failed
  | frame (payload : String)
deriving DecidableEq, Repr

/-- What one iteration of the `readPump` loop does next: exit the loop
(running the deferred close/unregister), or submit a message on
`hub.broadcast` and keep reading. -/
inductive ReadStep where
  | exitPump
  | broadcastMsg (m : Message)
deriving DecidableEq, Repr

/-- Embeds one iteration of the `Client.readPump` loop (client.go:90-122).
`decode` embeds `json.Decoder.Decode` into a fresh zero-valued
`WSMessage`: it returns whether the decode succeeded together with the
struct contents Decode left behind — the zero-valued struct on a syntax
error, but possibly a partially populated one when syntactically valid
JSON fails with a type or range error (encoding/json completes the
unmarshaling as best it can and still returns the error).  On a read error
the loop breaks; on a decode error it only logs and continues, submitting
`Message{ClientId: c.id, Text: msg.Text}` with whatever `msg.Text` the
decode left. -/
def readPumpStep (decode : String → Bool × WSMessage) (cid : String) :
    ReadEvent → ReadStep
  | .failed => .exitPump
  | .frame p => .broadcastMsg { ClientId := cid, Text := (decode p).2.Text }

/-- The behavior of `json.Decoder.Decode` into a zero `WSMessage` on the
payload `\x7b"HEADERS":1e999,"text":"ok"\x7d`: the literal `1e999`
overflows float64 while being decoded into the `HEADERS` field, so Decode
returns an UnmarshalTypeError, yet — per encoding/json's documented
semantics of completing the unmarshaling as best it can — the `text`
field is still populated with `"ok"`.  On every other payload this fixture
decodes successfully to the zero-valued struct. -/
def goDecodeOverflow : String → Bool × WSMessage :=
  fun p =>
    if p = "\x7b\"HEADERS\":1e999,\"text\":\"ok\"\x7d" then
      (false, { Headers := none, Text := "ok" })
    else
      (true, { Headers := none, Text := "" })

/-- Embeds the inner write loop of `Client.writePump` (client.go:155-161):
after `w.Write(msg)` the code runs `n := len(c.send)` and then `n` times
`w.Write(msg)` again.  This recursion produces the extra bytes written by
that `for` loop. -/
def burstLoop (msg : String) : Nat → String
  | 0 => ""
  | n + 1 => msg ++ burstLoop msg n

/-- Embeds the whole mailbox-message branch of `Client.writePump`
(client.go:148-165) acting on the first received message `msg` and the
messages `queued` still buffered in `c.send` at that instant: the bytes
written into the websocket message, paired with the channel contents left
behind (the loop never receives from `c.send`, so `queued` stays). -/
def writeBurst (msg : String) (queued : List String) : String × List String :=
  (msg ++ burstLoop msg queued.length, queued)

/-! ## Lemmas about the fan-out loop -/

/-- Membership in the registry after a Go map insert. -/
theorem mem_regInsert (d x : Client) (l : List Client) :
    x ∈ regInsert d l ↔ x = d ∨ x ∈ l := by
  unfold regInsert
  split
  · rename_i h
    constructor
    · exact fun hx => Or.inr hx
    · rintro (rfl | hx) <;> [exact h; exact hx]
  · simp [List.mem_cons]

/-- A Go map insert keeps the key set duplicate-free. -/
theorem regInsert_nodup (d : Client) (l : List Client) (h : l.Nodup) :
    (regInsert d l).Nodup := by
  unfold regInsert
  split
  · exact h
  · exact List.nodup_cons.mpr ⟨by assumption, h⟩

/-- The fan-out loop never touches the history. -/
theorem fanout_messages (r : String) (l : List Client) (s : HubState) :
    (fanout r l s).1.messages = s.messages := by
  induction l generalizing s with
  | nil => rfl
  | cons c rest ih =>
      by_cases h : (s.mailbox c).length < c.cap <;> simp [fanout, h, ih]

/-- The fan-out loop never adds a client to the registry. -/
theorem fanout_clients_subset (r : String) (l : List Client) (s : HubState)
    (x : Client) (hx : x ∈ (fanout r l s).1.clients) : x ∈ s.clients := by
  induction l generalizing s with
  | nil => exact hx
  | cons c rest ih =>
      by_cases h : (s.mailbox c).length < c.cap
      · simp only [fanout, if_pos h] at hx
        exact ih { s with mailbox := upd s.mailbox c (s.mailbox c ++ [r]) } hx
      · simp only [fanout, if_neg h] at hx
        exact List.erase_subset _ _ (ih _ hx)

/-- The fan-out loop keeps the registry duplicate-free. -/
theorem fanout_clients_nodup (r : String) (l : List Client) (s : HubState)
    (h : s.clients.Nodup) : (fanout r l s).1.clients.Nodup := by
  induction l generalizing s with
  | nil => exact h
  | cons c rest ih =>
      by_cases hc : (s.mailbox c).length < c.cap
      · simp only [fanout, if_pos hc]
        exact ih _ h
      · simp only [fanout, if_neg hc]
        exact ih _ (h.erase c)

/-- The clients closed by a fan-out form a sublist of the snapshot the
range iterated over. -/
theorem fanout_closes_sublist (r : String) (l : List Client) (s : HubState) :
    List.Sublist (fanout r l s).2 l := by
  induction l generalizing s with
  | nil => simp [fanout]
  | cons c rest ih =>
      by_cases h : (s.mailbox c).length < c.cap
      · simp only [fanout, if_pos h]
        exact (ih _).cons c
      · simp only [fanout, if_neg h]
        exact (ih _).cons₂ c

/-- A client not visited by the fan-out keeps its mailbox contents. -/
theorem fanout_mailbox_of_not_mem (r : String) (l : List Client)
    (s : HubState) (d : Client) (hd : d ∉ l) :
    (fanout r l s).1.mailbox d = s.mailbox d := by
  induction l generalizing s with
  | nil => rfl
  | cons c rest ih =>
      have hdc : d ≠ c := fun h => hd (h ▸ List.mem_cons_self c rest)
      have hdr : d ∉ rest := fun h => hd (List.mem_cons_of_mem c h)
      by_cases h : (s.mailbox c).length < c.cap
      · simp only [fanout, if_pos h]
        rw [ih _ hdr]
        simp [upd, hdc]
      · simp only [fanout, if_neg h]
        exact ih _ hdr

/-- A client not closed by the fan-out keeps its closed-flag. -/
theorem fanout_closedc_of_not_closed (r : String) (l : List Client)
    (s : HubState) (d : Client) (hd : d ∉ (fanout r l s).2) :
    (fanout r l s).1.closedc d = s.closedc d := by
  induction l generalizing s with
  | nil => rfl
  | cons c rest ih =>
      by_cases h : (s.mailbox c).length < c.cap
      · simp only [fanout, if_pos h] at hd ⊢
        exact ih _ hd
      · simp only [fanout, if_neg h] at hd ⊢
        have hdc : d ≠ c := fun hh => hd (hh ▸ List.mem_cons_self _ _)
        have hdr : d ∉ (fanout r rest
            { s with clients := s.clients.erase c,
                     closedc := upd s.closedc c true }).2 :=
          fun hh => hd (List.mem_cons_of_mem _ hh)
        rw [ih _ hdr]
        simp [upd, hdc]

/-- Once a client's channel is closed, the rest of the fan-out keeps it
closed. -/
theorem fanout_closedc_mono (r : String) (l : List Client) (s : HubState)
    (d : Client) (h : s.closedc d = true) :
    (fanout r l s).1.closedc d = true := by
  induction l generalizing s with
  | nil => exact h
  | cons c rest ih =>
      by_cases hc : (s.mailbox c).length < c.cap
      · simp only [fanout, if_pos hc]
        exact ih _ h
      · simp only [fanout, if_neg hc]
        refine ih _ ?_
        simp only [upd]
        split <;> [rfl; exact h]

/-- A client that is in the registry but not in the snapshot list stays in
the registry through the fan-out. -/
theorem fanout_mem_of_not_mem_list (r : String) (l : List Client)
    (s : HubState) (d : Client) (hdl : d ∉ l) (hmem : d ∈ s.clients) :
    d ∈ (fanout r l s).1.clients := by
  induction l generalizing s with
  | nil => exact hmem
  | cons c rest ih =>
      have hdc : d ≠ c := fun h => hdl (h ▸ List.mem_cons_self c rest)
      have hdr : d ∉ rest := fun h => hdl (List.mem_cons_of_mem c h)
      by_cases h : (s.mailbox c).length < c.cap
      · simp only [fanout, if_pos h]
        exact ih _ hdr hmem
      · simp only [fanout, if_neg h]
        exact ih _ hdr ((List.mem_erase_of_ne hdc).mpr hmem)

/-- During a fan-out over a duplicate-free snapshot, a client with room in
its mailbox receives exactly the rendered message, appended at the back of
its mailbox. -/
theorem fanout_mailbox_of_room (r : String) (l : List Client) (s : HubState)
    (d : Client) (hnd : l.Nodup) (hd : d ∈ l)
    (hroom : (s.mailbox d).length < d.cap) :
    (fanout r l s).1.mailbox d = s.mailbox d ++ [r] := by
  induction l generalizing s with
  | nil => cases hd
  | cons c rest ih =>
      by_cases hdc : d = c
      · subst hdc
        have hdr : d ∉ rest := (List.nodup_cons.mp hnd).1
        simp only [fanout, if_pos hroom]
        rw [fanout_mailbox_of_not_mem r rest _ d hdr]
        simp [upd]
      · have hdr : d ∈ rest := by
          cases List.mem_cons.mp hd with
          | inl h => exact absurd h hdc
          | inr h => exact h
        by_cases h : (s.mailbox c).length < c.cap
        · simp only [fanout, if_pos h]
          have hrec := ih { s with mailbox := upd s.mailbox c (s.mailbox c ++ [r]) }
            (List.nodup_cons.mp hnd).2 hdr (by simpa [upd, hdc] using hroom)
          rw [hrec]
          simp [upd, hdc]
        · simp only [fanout, if_neg h]
          exact ih _ (List.nodup_cons.mp hnd).2 hdr hroom

/-- During a fan-out over a duplicate-free snapshot, a registered client
with room in its mailbox stays in the registry. -/
theorem fanout_mem_of_room (r : String) (l : List Client) (s : HubState)
    (d : Client) (hnd : l.Nodup) (hmem : d ∈ s.clients)
    (hroom : (s.mailbox d).length < d.cap) :
    d ∈ (fanout r l s).1.clients := by
  induction l generalizing s with
  | nil => exact hmem
  | cons c rest ih =>
      by_cases hdc : d = c
      · subst hdc
        have hdr : d ∉ rest := (List.nodup_cons.mp hnd).1
        simp only [fanout, if_pos hroom]
        exact fanout_mem_of_not_mem_list r rest _ d hdr hmem
      · by_cases h : (s.mailbox c).length < c.cap
        · simp only [fanout, if_pos h]
          refine ih _ (List.nodup_cons.mp hnd).2 hmem ?_
          simpa [upd, hdc] using hroom
        · simp only [fanout, if_neg h]
          exact ih _ (List.nodup_cons.mp hnd).2
            ((List.mem_erase_of_ne hdc).mpr hmem) hroom

/-- During a fan-out over a duplicate-free snapshot, a visited client whose
mailbox cannot accept the message is closed and evicted. -/
theorem fanout_evicts_full (r : String) (l : List Client) (s : HubState)
    (d : Client) (hnd : l.Nodup) (hscl : s.clients.Nodup) (hd : d ∈ l)
    (hfull : ¬ (s.mailbox d).length < d.cap) :
    d ∈ (fanout r l s).2
    ∧ (fanout r l s).1.closedc d = true
    ∧ d ∉ (fanout r l s).1.clients := by
  induction l generalizing s with
  | nil => cases hd
  | cons c rest ih =>
      by_cases hdc : d = c
      · subst hdc
        simp only [fanout, if_neg hfull]
        refine ⟨List.mem_cons_self _ _, ?_, ?_⟩
        · exact fanout_closedc_mono r rest _ d (by simp [upd])
        · intro hin
          exact hscl.not_mem_erase (fanout_clients_subset r rest _ d hin)
      · have hdr : d ∈ rest := by
          cases List.mem_cons.mp hd with
          | inl h => exact absurd h hdc
          | inr h => exact h
        by_cases h : (s.mailbox c).length < c.cap
        · simp only [fanout, if_pos h]
          refine ih _ (List.nodup_cons.mp hnd).2 hscl hdr ?_
          simpa [upd, hdc] using hfull
        · simp only [fanout, if_neg h]
          have hrec := ih { s with clients := s.clients.erase c, closedc := upd s.closedc c true } (List.nodup_cons.mp hnd).2 (hscl.erase c) hdr hfull
          exact ⟨List.mem_cons_of_mem _ hrec.1, hrec.2.1, hrec.2.2⟩

/-- Every client the fan-out closes ends up closed and outside the
registry. -/
theorem fanout_closed_props (r : String) (l : List Client) (s : HubState)
    (d : Client) (hscl : s.clients.Nodup) (hd : d ∈ (fanout r l s).2) :
    (fanout r l s).1.closedc d = true ∧ d ∉ (fanout r l s).1.clients := by
  induction l generalizing s with
  | nil => cases hd
  | cons c rest ih =>
      by_cases h : (s.mailbox c).length < c.cap
      · simp only [fanout, if_pos h] at hd ⊢
        exact ih _ hscl hd
      · simp only [fanout, if_neg h] at hd ⊢
        by_cases hdc : d = c
        · subst hdc
          refine ⟨fanout_closedc_mono r rest _ d (by simp [upd]), ?_⟩
          intro hin
          exact hscl.not_mem_erase (fanout_clients_subset r rest _ d hin)
        · have hdp : d ∈ (fanout r rest
              { s with clients := s.clients.erase c,
                       closedc := upd s.closedc c true }).2 := by
            cases List.mem_cons.mp hd with
            | inl hh => exact absurd hh hdc
            | inr hh => exact hh
          exact ih _ (hscl.erase c) hdp

/-! ## Concrete fixtures used by witness theorems -/

/-- A client with room in its mailbox (channel capacity 1). -/
def cA : Client := { tag := 0, id := "A", cap := 1 }

/-- A second client with room in its mailbox. -/
def cB : Client := { tag := 1, id := "B", cap := 1 }

/-- A client whose channel has capacity 0, so a non-blocking send to it
always fails. -/
def cC : Client := { tag := 2, id := "C", cap := 0 }

/-- A concrete renderer standing in for `getMessageTemplate`. -/
def renderText : Message → String := fun m => m.ClientId ++ ": " ++ m.Text

/-- A hub state with clients `cA` and `cB` registered, empty history,
all channels empty and open. -/
def sAB : HubState :=
  { clients := [cA, cB], messages := [], mailbox := fun _ => [],
    closedc := fun _ => false }

/-- A hub state with `cA`, `cC` and `cB` registered (in that iteration
order), where `cC`'s channel cannot accept any message. -/
def sACB : HubState :=
  { clients := [cA, cC, cB], messages := [], mailbox := fun _ => [],
    closedc := fun _ => false }

/-! ## C8: keepalive timing constants -/

/-- C8: the keepalive-probe period constant `pingPeriod` equals 9/10 of the
read-inactivity window `pongWait`, i.e. 54 seconds, and is strictly smaller
than the 60-second window. -/
theorem pingPeriod_spec :
    pingPeriod = 54 * second ∧ pingPeriod * 10 = pongWait * 9 ∧
      pongWait = 60 * second ∧ pingPeriod < pongWait := by
  refine ⟨by decide, by decide, by decide, by decide⟩

/-! ## C4: read-deadline handling (code bug: ping handler, not pong handler) -/

/-- C4 (divergence witness): `readPump` sets the read deadline to
`now + pongWait` on start, and an incoming ping at a later time refreshes
it, but an incoming pong — the peer's liveness-ack to our keepalive — does
NOT refresh it: the pump installs `SetPingHandler` (client.go:82) even
though its own comment says it is setting the pong handler, so a pong
leaves the deadline where it was.  Evaluated here at pump start `now = 0`
with a control frame arriving at `now = 30s`. -/
theorem pong_not_refreshing_deadline :
    (readPumpInit 0).readDeadline = 0 + pongWait
    ∧ handleCtrl (readPumpInit 0) (30 * second) (.pong "") = readPumpInit 0
    ∧ (handleCtrl (readPumpInit 0) (30 * second) (.pong "")).readDeadline
        ≠ 30 * second + pongWait
    ∧ (handleCtrl (readPumpInit 0) (30 * second) (.ping "")).readDeadline
        = 30 * second + pongWait := by
  refine ⟨by decide, rfl, by decide, by decide⟩

/-! ## C5: outbound write burst (code bug: duplicates `msg`, never drains) -/

/-- C5 (divergence witness): with first message `"a"` and one further
message `"b"` queued in the mailbox, the burst branch of `writePump` writes
`"aa"` — the first message again — instead of the claimed concatenation
`"ab"` of the first message with the queued one (`w.Write(msg)` at
client.go:160 writes `msg`, not a value received from `c.send`), and
leaves the queued message in the mailbox instead of draining it. -/
theorem writeBurst_duplicates_msg :
    writeBurst "a" ["b"] = ("aa", ["b"])
    ∧ (writeBurst "a" ["b"]).1 ≠ "ab"
    ∧ (writeBurst "a" ["b"]).2 ≠ [] := by
  refine ⟨rfl, by decide, by decide⟩

/-! ## C6: decode failures are non-fatal (corrected: the broadcast text
is whatever the failed decode left, empty only when the struct stayed
zero-valued) -/

/-- Counterexample to C6 as stated: a payload that fails to decode yet is
broadcast with non-empty `Text`.  With Go's documented decode behavior on
the payload `\x7b"HEADERS":1e999,"text":"ok"\x7d` (Decode errors on the
float64 overflow but still populates `text`), the pump broadcasts
`Text = "ok"`, not the empty string the claim asserts for every failing
payload. -/
theorem decode_failure_text_nonempty :
    (goDecodeOverflow "\x7b\"HEADERS\":1e999,\"text\":\"ok\"\x7d").1 = false
    ∧ readPumpStep goDecodeOverflow "A"
        (.frame "\x7b\"HEADERS\":1e999,\"text\":\"ok\"\x7d")
        = .broadcastMsg { ClientId := "A", Text := "ok" }
    ∧ .broadcastMsg { ClientId := "A", Text := "ok" }
        ≠ ReadStep.broadcastMsg { ClientId := "A", Text := "" } := by
  refine ⟨by decide, by decide, by decide⟩

/-- C6 (amended): if the inbound payload of a data frame fails to decode,
one iteration of the `readPump` loop does not exit the pump: it logs and
continues, submitting to the broadcast queue a `Message` whose `ClientId`
is the receiving client's own id and whose `Text` is whatever the failed
decode left in the struct's text field — the empty string whenever the
decode left the zero-valued struct's text untouched (as on syntactically
malformed payloads), though possibly non-empty when valid JSON fails after
populating the text field. -/
theorem malformed_payload_nonfatal (decode : String → Bool × WSMessage)
    (cid p : String) (hfail : (decode p).1 = false) :
    readPumpStep decode cid (.frame p)
      = .broadcastMsg { ClientId := cid, Text := (decode p).2.Text }
    ∧ readPumpStep decode cid (.frame p) ≠ .exitPump
    ∧ ((decode p).2.Text = "" →
        readPumpStep decode cid (.frame p)
          = .broadcastMsg { ClientId := cid, Text := "" }) := by
  refine ⟨rfl, by simp [readPumpStep], ?_⟩
  intro h
  simp [readPumpStep, h]

/-- Witness for C6 at a concrete syntactically malformed payload, whose
failed decode leaves the zero-valued struct: the broadcast text is
empty. -/
theorem malformed_payload_nonfatal_witness :
    ((fun _ : String => (false, ({ Headers := none, Text := "" } : WSMessage))) "notjson").1 = false
    ∧ readPumpStep (fun _ : String => (false, ({ Headers := none, Text := "" } : WSMessage)))
        "A" (.frame "notjson")
        = .broadcastMsg { ClientId := "A", Text := "" } :=
  ⟨rfl, (malformed_payload_nonfatal
    (fun _ => (false, { Headers := none, Text := "" })) "A" "notjson" rfl).2.2 rfl⟩

/-! ## C9: registering an already-registered client is a no-op -/

/-- C9: handling a `register` event for a client already present in the
registry leaves the entire hub state unchanged (the Go map insert
`h.clients[client] = true` does not change the key set, and the register
branch touches nothing else), and closes no channel. -/
theorem register_idempotent (render : Message → String) (s : HubState)
    (c : Client) (h : c ∈ s.clients) :
    hubStep render s (.register c) = (s, []) := by
  simp [hubStep, regInsert, h]

/-- Witness for C9: re-registering `cA`, already present in `sAB`. -/
theorem register_idempotent_witness :
    cA ∈ sAB.clients ∧ hubStep renderText sAB (.register cA) = (sAB, []) :=
  ⟨by decide, register_idempotent renderText sAB cA (by decide)⟩

/-! ## C1: backpressure eviction during broadcast -/

/-- C1: when a broadcast is handled and some registered client's channel
cannot accept the rendered message, the hub closes that client's channel
and removes it from the registry within that same broadcast handling (the
client is reported in the closed list of the step), while every other
registered client whose enqueue succeeds still receives the rendered
message and stays registered.  The broadcast handler is a total function
of the state — the non-blocking `select`/`default` never waits on the slow
client.  The `Nodup` hypothesis is the key-uniqueness of the Go registry
map. -/
theorem backpressure_eviction (render : Message → String) (s : HubState)
    (m : Message) (c : Client)
    (hnd : s.clients.Nodup) (hc : c ∈ s.clients)
    (hfull : ¬ (s.mailbox c).length < c.cap) :
    c ∈ (hubStep render s (.broadcast m)).2
    ∧ (hubStep render s (.broadcast m)).1.closedc c = true
    ∧ c ∉ (hubStep render s (.broadcast m)).1.clients
    ∧ ∀ d, d ∈ s.clients → (s.mailbox d).length < d.cap →
        (hubStep render s (.broadcast m)).1.mailbox d
            = s.mailbox d ++ [render m]
        ∧ d ∈ (hubStep render s (.broadcast m)).1.clients := by
  have hev := fanout_evicts_full (render m) s.clients
    { s with messages := s.messages ++ [m] } c hnd hnd hc hfull
  refine ⟨hev.1, hev.2.1, hev.2.2, ?_⟩
  intro d hd hroom
  exact ⟨fanout_mailbox_of_room (render m) s.clients _ d hnd hd hroom,
    fanout_mem_of_room (render m) s.clients _ d hnd hd hroom⟩

/-- Witness for C1: in `sACB`, client `cC` (channel capacity 0) is evicted
by a broadcast while `cA` and `cB` still receive the rendered message. -/
theorem backpressure_eviction_witness :
    (sACB.clients.Nodup ∧ cC ∈ sACB.clients
      ∧ ¬ (sACB.mailbox cC).length < cC.cap)
    ∧ cC ∈ (hubStep renderText sACB (.broadcast { ClientId := "A", Text := "x" })).2
    ∧ (hubStep renderText sACB (.broadcast { ClientId := "A", Text := "x" })).1.mailbox cB
        = sACB.mailbox cB ++ [renderText { ClientId := "A", Text := "x" }] :=
  have h := backpressure_eviction renderText sACB
    { ClientId := "A", Text := "x" } cC (by decide) (by decide) (by decide)
  ⟨⟨by decide, by decide, by decide⟩, h.1,
    (h.2.2.2 cB (by decide) (by decide)).1⟩

/-! ## C2: sender-inclusive fan-out to every registered client -/

/-- C2: when a broadcast is handled, the message is appended to history,
and at that moment the rendered message is offered via non-blocking
enqueue to every client then present in the registry: each such client
either has the rendered message appended to its mailbox (enqueue
succeeded) or is closed and evicted (enqueue failed).  The quantifier
ranges over all registered clients with no exclusion — in particular a
client whose `id` equals `m.ClientId` (the sender) is offered the message
like any other. -/
theorem broadcast_offers_all (render : Message → String) (s : HubState)
    (m : Message) (hnd : s.clients.Nodup) :
    (hubStep render s (.broadcast m)).1.messages = s.messages ++ [m]
    ∧ ∀ c, c ∈ s.clients →
        ((s.mailbox c).length < c.cap →
          (hubStep render s (.broadcast m)).1.mailbox c
            = s.mailbox c ++ [render m])
        ∧ (¬ (s.mailbox c).length < c.cap →
          (hubStep render s (.broadcast m)).1.closedc c = true
          ∧ c ∉ (hubStep render s (.broadcast m)).1.clients) := by
  constructor
  · exact fanout_messages (render m) s.clients
      { s with messages := s.messages ++ [m] }
  · intro c hc
    constructor
    · intro hroom
      exact fanout_mailbox_of_room (render m) s.clients _ c hnd hc hroom
    · intro hfull
      have hev := fanout_evicts_full (render m) s.clients
        { s with messages := s.messages ++ [m] } c hnd hnd hc hfull
      exact ⟨hev.2.1, hev.2.2⟩

/-- Witness for C2: broadcasting a message attributed to `cA` in `sAB`
appends it to history and delivers the rendering to the sender `cA`
itself as well as to `cB`. -/
theorem broadcast_offers_all_witness :
    sAB.clients.Nodup ∧ cA.id = "A"
    ∧ (hubStep renderText sAB (.broadcast { ClientId := "A", Text := "hi" })).1.messages
        = sAB.messages ++ [{ ClientId := "A", Text := "hi" }]
    ∧ (hubStep renderText sAB (.broadcast { ClientId := "A", Text := "hi" })).1.mailbox cA
        = sAB.mailbox cA ++ [renderText { ClientId := "A", Text := "hi" }]
    ∧ (hubStep renderText sAB (.broadcast { ClientId := "A", Text := "hi" })).1.mailbox cB
        = sAB.mailbox cB ++ [renderText { ClientId := "A", Text := "hi" }] :=
  have h := broadcast_offers_all renderText sAB
    { ClientId := "A", Text := "hi" } (by decide)
  ⟨by decide, rfl, h.1, (h.2 cA (by decide)).1 (by decide),
    (h.2 cB (by decide)).1 (by decide)⟩

/-! ## C3: history is append-only -/

/-- C3: the history is append-only.  Every single control-loop event
extends the history by a (possibly empty) suffix — no event removes or
modifies an existing entry; a broadcast event appends exactly its one
message; register and unregister events leave the history unchanged; and
over any sequence of events the history is extended by a suffix, so its
length is non-decreasing. -/
theorem history_append_only (render : Message → String) (s : HubState)
    (es : List Event) :
    (∀ e, ∃ t, (hubStep render s e).1.messages = s.messages ++ t)
    ∧ (∀ m, (hubStep render s (.broadcast m)).1.messages = s.messages ++ [m])
    ∧ (∀ c, (hubStep render s (.register c)).1.messages = s.messages
        ∧ (hubStep render s (.unregister c)).1.messages = s.messages)
    ∧ (∃ t, (hubRun render s es).1.messages = s.messages ++ t)
    ∧ s.messages.length ≤ (hubRun render s es).1.messages.length := by
  have hbr : ∀ (s1 : HubState) (m : Message),
      (hubStep render s1 (.broadcast m)).1.messages = s1.messages ++ [m] :=
    fun s1 m => fanout_messages (render m) s1.clients
      { s1 with messages := s1.messages ++ [m] }
  have hreg : ∀ (s1 : HubState) (c : Client),
      (hubStep render s1 (.register c)).1.messages = s1.messages :=
    fun s1 c => rfl
  have hunreg : ∀ (s1 : HubState) (c : Client),
      (hubStep render s1 (.unregister c)).1.messages = s1.messages := by
    intro s1 c
    by_cases h : c ∈ s1.clients <;> simp [hubStep, h]
  have hstep : ∀ (s1 : HubState) (e : Event),
      ∃ t, (hubStep render s1 e).1.messages = s1.messages ++ t := by
    intro s1 e
    cases e with
    | register c => exact ⟨[], by simp [hreg s1 c]⟩
    | unregister c => exact ⟨[], by simp [hunreg s1 c]⟩
    | broadcast m => exact ⟨[m], hbr s1 m⟩
  have hrun : ∀ (es1 : List Event) (s1 : HubState),
      ∃ t, (hubRun render s1 es1).1.messages = s1.messages ++ t := by
    intro es1
    induction es1 with
    | nil => exact fun s1 => ⟨[], by simp [hubRun]⟩
    | cons e es1 ih =>
        intro s1
        obtain ⟨t1, ht1⟩ := hstep s1 e
        obtain ⟨t2, ht2⟩ := ih (hubStep render s1 e).1
        exact ⟨t1 ++ t2, by simp [hubRun, ht2, ht1]⟩
  refine ⟨hstep s, hbr s, fun c => ⟨hreg s c, hunreg s c⟩, hrun es s, ?_⟩
  obtain ⟨t, ht⟩ := hrun es s
  simp [ht]

/-! ## C7: unregister closes and removes a present client, else no-op -/

/-- C7: handling an `unregister` event for a client present in the
registry closes that client's channel and removes it from the registry,
leaving the history, every other client's registry membership and closed
flag, and every mailbox unchanged; handling it for an absent client
changes nothing at all and closes nothing. -/
theorem unregister_cases (render : Message → String) (s : HubState)
    (c : Client) (hnd : s.clients.Nodup) :
    (c ∈ s.clients →
      c ∉ (hubStep render s (.unregister c)).1.clients
      ∧ (hubStep render s (.unregister c)).1.closedc c = true
      ∧ (hubStep render s (.unregister c)).2 = [c]
      ∧ (hubStep render s (.unregister c)).1.messages = s.messages
      ∧ (∀ d, (hubStep render s (.unregister c)).1.mailbox d = s.mailbox d)
      ∧ (∀ d, d ≠ c →
          (hubStep render s (.unregister c)).1.closedc d = s.closedc d
          ∧ ((d ∈ (hubStep render s (.unregister c)).1.clients) ↔ d ∈ s.clients)))
    ∧ (c ∉ s.clients → hubStep render s (.unregister c) = (s, [])) := by
  constructor
  · intro hc
    have hstep : hubStep render s (.unregister c)
        = ({ s with clients := s.clients.erase c, closedc := upd s.closedc c true }, [c]) := by
      simp [hubStep, hc]
    rw [hstep]
    refine ⟨hnd.not_mem_erase, by simp [upd], rfl, rfl, fun d => rfl, ?_⟩
    intro d hdc
    exact ⟨by simp [upd, hdc], List.mem_erase_of_ne hdc⟩
  · intro hc
    simp only [hubStep, if_neg hc]

/-- Witness for C7: unregistering the present client `cA` from `sAB`
closes it and removes it; unregistering the absent client `cC` is a
no-op. -/
theorem unregister_cases_witness :
    (sAB.clients.Nodup ∧ cA ∈ sAB.clients
      ∧ cA ∉ (hubStep renderText sAB (.unregister cA)).1.clients
      ∧ (hubStep renderText sAB (.unregister cA)).1.closedc cA = true)
    ∧ (cC ∉ sAB.clients
      ∧ hubStep renderText sAB (.unregister cC) = (sAB, [])) :=
  have h1 := unregister_cases renderText sAB cA (by decide)
  have h2 := unregister_cases renderText sAB cC (by decide)
  ⟨⟨by decide, by decide, (h1.1 (by decide)).1, (h1.1 (by decide)).2.1⟩,
    ⟨by decide, h2.2 (by decide)⟩⟩

/-! ## C10: each client's channel is closed at most once -/

/-- Invariant underlying C10, proved over an arbitrary start state: if the
registry keys are duplicate-free, a closed `c` is never registered, `c`
still has its (unique) register event ahead whenever it is currently
outside the registry and open, and `c` is registered at most once in the
remaining events, then the run closes `c`'s channel at most once — and not
at all if it is already closed. -/
theorem hubRun_close_bound (render : Message → String) (es : List Event)
    (s : HubState) (c : Client)
    (hnd : s.clients.Nodup)
    (hcl : s.closedc c = true → c ∉ s.clients)
    (hreg : c ∈ registersOf es → c ∉ s.clients ∧ s.closedc c = false)
    (hreg1 : (registersOf es).count c ≤ 1) :
    (hubRun render s es).2.count c
      + (if s.closedc c = true then 1 else 0) ≤ 1 := by
  induction es generalizing s with
  | nil =>
      simp only [hubRun, List.count_nil]
      split <;> omega
  | cons e es ih =>
      cases e with
      | register d =>
          have hstep : hubStep render s (Event.register d)
              = ({ s with clients := regInsert d s.clients }, []) := rfl
          simp only [hubRun, hstep, List.nil_append]
          have hcl2 : s.closedc c = true → c ∉ regInsert d s.clients := by
            intro h hin
            rcases (mem_regInsert d c s.clients).mp hin with hcd | hmem
            · subst hcd
              have hr := hreg (List.mem_cons_self _ _)
              rw [hr.2] at h
              simp at h
            · exact hcl h hmem
          have hreg2 : c ∈ registersOf es →
              c ∉ regInsert d s.clients ∧ s.closedc c = false := by
            intro hmem
            have h0 := hreg (List.mem_cons_of_mem d hmem)
            refine ⟨?_, h0.2⟩
            intro hin
            rcases (mem_regInsert d c s.clients).mp hin with hcd | hmem2
            · subst hcd
              have h1 : 1 ≤ (registersOf es).count c :=
                List.count_pos_iff.mpr hmem
              have h2 := hreg1
              simp only [registersOf, List.count_cons, beq_self_eq_true,
                if_true] at h2
              omega
            · exact h0.1 hmem2
          have hreg3 : (registersOf es).count c ≤ 1 :=
            le_trans ((List.sublist_cons_self d (registersOf es)).count_le c)
              hreg1
          exact ih _ (regInsert_nodup d s.clients hnd) hcl2 hreg2 hreg3
      | unregister d =>
          by_cases hdm : d ∈ s.clients
          · have hstep : hubStep render s (Event.unregister d)
                = ({ s with clients := s.clients.erase d, closedc := upd s.closedc d true }, [d]) := by
              simp [hubStep, hdm]
            simp only [hubRun, hstep, List.cons_append, List.nil_append]
            by_cases hcd : c = d
            · subst hcd
              have hclf : s.closedc c = false := by
                cases h : s.closedc c
                · rfl
                · exact absurd hdm (hcl h)
              have hb := ih { s with clients := s.clients.erase c, closedc := upd s.closedc c true }
                (hnd.erase c)
                (fun _ => hnd.not_mem_erase)
                (fun hm => absurd hdm (hreg hm).1)
                hreg1
              have hsc : upd s.closedc c true c = true := by simp [upd]
              simp only [hsc, if_true] at hb
              rw [List.count_cons_self, hclf]
              simp only [show (false = true) = False by simp, if_false]
              omega
            · have hsc : upd s.closedc d true c = s.closedc c := by
                simp [upd, hcd]
              have hb := ih { s with clients := s.clients.erase d, closedc := upd s.closedc d true }
                (hnd.erase d)
                (fun h hin => hcl (hsc ▸ h) (List.erase_subset _ _ hin))
                (fun hm => ⟨fun hin => (hreg hm).1 (List.erase_subset _ _ hin),
                  by show upd s.closedc d true c = false
                     rw [hsc]
                     exact (hreg hm).2⟩)
                hreg1
              simp only [hsc] at hb
              rw [List.count_cons_of_ne hcd]
              omega
          · have hstep : hubStep render s (Event.unregister d) = (s, []) := by
              simp [hubStep, hdm]
            simp only [hubRun, hstep, List.nil_append]
            exact ih s hnd hcl hreg hreg1
      | broadcast m =>
          have hstep : hubStep render s (Event.broadcast m)
              = fanout (render m) s.clients { s with messages := s.messages ++ [m] } := rfl
          simp only [hubRun, hstep, List.count_append]
          by_cases hcm : c ∈ (fanout (render m) s.clients { s with messages := s.messages ++ [m] }).2
          · have hcs : c ∈ s.clients :=
              (fanout_closes_sublist (render m) s.clients _).subset hcm
            have hclf : s.closedc c = false := by
              cases h : s.closedc c
              · rfl
              · exact absurd hcs (hcl h)
            have hcnt1 : (fanout (render m) s.clients { s with messages := s.messages ++ [m] }).2.count c ≤ 1 :=
              le_trans ((fanout_closes_sublist (render m) s.clients _).count_le c)
                (List.nodup_iff_count_le_one.mp hnd c)
            have hprops := fanout_closed_props (render m) s.clients
              { s with messages := s.messages ++ [m] } c hnd hcm
            have hb := ih (fanout (render m) s.clients { s with messages := s.messages ++ [m] }).1
              (fanout_clients_nodup (render m) s.clients _ hnd)
              (fun _ => hprops.2)
              (fun hm => absurd hcs (hreg hm).1)
              hreg1
            simp only [hprops.1, if_true] at hb
            simp only [hclf]
            simp only [show (false = true) = False by simp, if_false]
            omega
          · have hcnt0 : (fanout (render m) s.clients { s with messages := s.messages ++ [m] }).2.count c = 0 :=
              List.count_eq_zero.mpr hcm
            have hclsame : (fanout (render m) s.clients { s with messages := s.messages ++ [m] }).1.closedc c = s.closedc c :=
              fanout_closedc_of_not_closed (render m) s.clients _ c hcm
            have hb := ih (fanout (render m) s.clients { s with messages := s.messages ++ [m] }).1
              (fanout_clients_nodup (render m) s.clients _ hnd)
              (fun h hin => hcl (hclsame ▸ h)
                (fanout_clients_subset (render m) s.clients
                  { s with messages := s.messages ++ [m] } c hin))
              (fun hm => ⟨fun hin => (hreg hm).1
                  (fanout_clients_subset (render m) s.clients
                    { s with messages := s.messages ++ [m] } c hin),
                by rw [hclsame]; exact (hreg hm).2⟩)
              hreg1
            rw [hclsame] at hb
            omega

/-- C10: starting from the freshly created hub, over any sequence of
control-loop events in which each client is registered at most once (in
the program each `*Client` is sent on `h.register` exactly once, from
`serveWs`), a given client's `send` channel is closed at most once: the
two closing operations — unregister of a present client and backpressure
eviction during a broadcast — only fire on clients currently in the
registry and remove them in the same step, so no reachable sequence closes
an already-closed channel. -/
theorem send_closed_at_most_once (render : Message → String)
    (es : List Event) (hreg : (registersOf es).Nodup) (c : Client) :
    (hubRun render initHub es).2.count c ≤ 1 := by
  have h := hubRun_close_bound render es initHub c
    (by simp [initHub])
    (by intro h; simp [initHub] at h)
    (by intro _; exact ⟨by simp [initHub], rfl⟩)
    (List.nodup_iff_count_le_one.mp hreg c)
  simpa [initHub] using h

/-- Witness for C10: a run that registers the capacity-0 client `cC` and
then broadcasts, actually closing `cC`'s channel once. -/
theorem send_closed_at_most_once_witness :
    (registersOf [Event.register cC,
        Event.broadcast { ClientId := "A", Text := "hi" }]).Nodup
    ∧ (hubRun renderText initHub [Event.register cC,
        Event.broadcast { ClientId := "A", Text := "hi" }]).2.count cC ≤ 1 :=
  ⟨by decide, send_closed_at_most_once renderText
    [Event.register cC, Event.broadcast { ClientId := "A", Text := "hi" }]
    (by decide) cC⟩

end Chatter
